import Mathlib

/-!
Verification of the core of `streamlit_phone_extractor.py`: the Egyptian
mobile-number normalizer `find_egypt_mobile`, the deduplicating table
builder `build_output_df`, and the two-column export projection
`dataframe_to_excel_bytes`.

Strings are modelled as Lean `String` (a list of Unicode characters), which
matches Python `str` (a sequence of code points): `len`, slicing and
`startswith` on the Python side correspond to `List.length`, `List.take`
and `List.tail` on the character list.
-/

/--
Python's character class `\d` used in `EG_MOBILE_REGEX` and in
`re.sub(r"\D", "", ...)`. With a `str` pattern and default flags, `\d`
matches every Unicode decimal digit (category Nd), not only ASCII `0-9`.
We model the ASCII digit range together with the Arabic-Indic digit block
U+0660..U+0669 (the block actually used for Egyptian numbers written in
Eastern Arabic numerals); every other Nd block behaves exactly like the
Arabic-Indic one in all properties considered here.
-/
def isPyDigit (c : Char) : Bool :=
  c.isDigit || (0x660 ≤ c.toNat && c.toNat ≤ 0x669)

/--
The mandatory core of `EG_MOBILE_REGEX = re.compile(r'(?:\+?20)?0?1\d{9}')`
tried at the current position: a literal `1` followed by exactly nine `\d`
characters. Returns the matched characters.
-/
def matchCore : List Char → Option (List Char)
  | [] => none
  | c :: t =>
    if c = '1' ∧ 9 ≤ t.length ∧ (t.take 9).all isPyDigit = true then
      some (c :: t.take 9)
    else
      none

/--
The `0?1\d{9}` part of the pattern at the current position. The greedy `0?`
first tries to consume a literal `0` and fall through to the core; on
failure it retries without consuming, exactly as the backtracking regex
engine does.
-/
def matchOpt0 (l : List Char) : Option (List Char) :=
  (match l with
   | a :: t => if a = '0' then (matchCore t).map (fun m => '0' :: m) else none
   | [] => none)
  <|> matchCore l

/--
The `(?:\+?20)` group taken with its leading `+`: `+20` followed by
`0?1\d{9}`.
-/
def tryPlus20 (l : List Char) : Option (List Char) :=
  match l with
  | a :: b :: c :: t =>
    if a = '+' ∧ b = '2' ∧ c = '0' then
      (matchOpt0 t).map (fun m => '+' :: '2' :: '0' :: m)
    else
      none
  | _ => none

/-- The `(?:\+?20)` group without the optional `+`: `20` then `0?1\d{9}`. -/
def try20 (l : List Char) : Option (List Char) :=
  match l with
  | a :: b :: t =>
    if a = '2' ∧ b = '0' then
      (matchOpt0 t).map (fun m => '2' :: '0' :: m)
    else
      none
  | _ => none

/--
One attempt of the full pattern `(?:\+?20)?0?1\d{9}` anchored at the current
position. The backtracking order of the engine is: group present with `+`,
group present without `+`, group absent.
-/
def tryAt (l : List Char) : Option (List Char) :=
  tryPlus20 l <|> (try20 l <|> matchOpt0 l)

/--
`EG_MOBILE_REGEX.search(s)`: try the pattern at position 0, 1, ... and
return the first (leftmost) match, or `none` when no position matches.
-/
def egSearch : List Char → Option (List Char)
  | [] => none
  | c :: t => tryAt (c :: t) <|> egSearch t

/-- `re.sub(r"\D", "", m)`: keep exactly the `\d` characters of the match. -/
def stripNonDigits (l : List Char) : List Char :=
  l.filter isPyDigit

/--
The three-way normalization of `find_egypt_mobile` (lines 41-48):
`0`-prefixed 11-digit local numbers get the leading `0` replaced by `20`,
`20`-prefixed 12-digit numbers are kept, bare 10-digit `1`-prefixed
subscriber numbers get `20` prepended, anything else is rejected.
-/
def normalizeDigits (d : List Char) : Option (List Char) :=
  if d.take 1 = ['0'] ∧ d.length = 11 then some ('2' :: '0' :: d.tail)
  else if d.take 2 = ['2', '0'] ∧ d.length = 12 then some d
  else if d.take 1 = ['1'] ∧ d.length = 10 then some ('2' :: '0' :: d)
  else none

/--
The final validation gate of `find_egypt_mobile` (lines 50-51):
`digits.startswith("201") and len(digits) == 12`, else `None`.
-/
def finalGate (d : List Char) : Option (List Char) :=
  if d.take 3 = ['2', '0', '1'] ∧ d.length = 12 then some d else none

/--
`find_egypt_mobile(text)` (lines 24-53): `None` input gives `None`;
otherwise search for the pattern, strip non-digits from the match,
normalize, validate, and return the canonical digit string.
-/
def find_egypt_mobile (text : Option String) : Option String :=
  match text with
  | none => none
  | some s =>
    match egSearch s.data with
    | none => none
    | some m =>
      match normalizeDigits (stripNonDigits m) with
      | none => none
      | some d =>
        match finalGate d with
        | none => none
        | some d => some (String.mk d)

/-- One output row of `build_output_df` (lines 68-72). -/
structure Record where
  phoneNumber : String
  link : String
  completed : Bool
deriving DecidableEq, Repr

/-- The row dict built for one successfully normalized value (lines 68-72). -/
def mkRow (digits : String) : Record :=
  { phoneNumber := "+" ++ digits
    link := "https://wa.me/" ++ digits
    completed := false }

/--
The `rows` list of `build_output_df` (lines 64-72): one candidate Record per
input value whose normalization succeeds, in input order. Python's
`if digits:` is the nonempty-string truthiness test, modelled as a length
check.
-/
def candidateRows (raw : List (Option String)) : List Record :=
  raw.filterMap fun v =>
    match find_egypt_mobile v with
    | none => none
    | some d => if d.length = 0 then none else some (mkRow d)

/--
`df.drop_duplicates(subset=["Phone Number"])` with the default
`keep="first"`: keep a row only when its `Phone Number` has not been seen
before, preserving the relative order of survivors.
-/
def dropDupFirst : List String → List Record → List Record
  | _, [] => []
  | seen, r :: t =>
    if r.phoneNumber ∈ seen then dropDupFirst seen t
    else r :: dropDupFirst (r.phoneNumber :: seen) t

/--
`build_output_df(raw_series)` (lines 56-77): collect candidate rows, then
(when the frame is nonempty) deduplicate by `Phone Number` keeping first
occurrences; `reset_index(drop=True)` keeps the row order.
-/
def build_output_df (raw : List (Option String)) : List Record :=
  match candidateRows raw with
  | [] => []
  | r :: t => dropDupFirst [] (r :: t)

/-- The `=HYPERLINK(...)` formula of line 90. -/
def hyperlinkFormula (url : String) : String :=
  "=HYPERLINK(\"" ++ url ++ "\", \"Open WhatsApp\")"

/--
The cell grid that `dataframe_to_excel_bytes` (lines 80-97) hands to the
spreadsheet writer: a header row `Phone Number`, `WhatsApp Link`, then one
two-cell row per Record in table order; with `make_clickable` the link cell
is replaced by the HYPERLINK formula wrapping the same URL. (The byte
serialization of this grid is done by the external `openpyxl` collaborator
and is out of scope.)
-/
def dataframe_to_excel_bytes (df : List Record) (make_clickable : Bool) :
    List (List String) :=
  ["Phone Number", "WhatsApp Link"] ::
    df.map fun r =>
      [r.phoneNumber, if make_clickable then hyperlinkFormula r.link else r.link]

/--
The normalization case analysis exactly as the specification states it
(step 6 of the Normalizer contract, with no final gate after it); used in
claim C2 to compare with the implementation.
-/
def specNormalize (d : List Char) : Option (List Char) :=
  if d.take 1 = ['0'] ∧ d.length = 11 then some ('2' :: '0' :: d.tail)
  else if d.take 2 = ['2', '0'] ∧ d.length = 12 then some d
  else if d.take 1 = ['1'] ∧ d.length = 10 then some ('2' :: '0' :: d)
  else none

/-! ### Helper lemmas: shape of every possible regex match -/

theorem orElse_eq_some_cases {α : Type} {a b : Option α} {m : α}
    (h : (a <|> b) = some m) : a = some m ∨ (a = none ∧ b = some m) := by
  cases a with
  | none => exact Or.inr ⟨rfl, by simpa using h⟩
  | some x => exact Or.inl (by simpa using h)

theorem filter_eq_self_of_all {t : List Char} (h : t.all isPyDigit = true) :
    t.filter isPyDigit = t := by
  rw [List.filter_eq_self]
  simpa [List.all_eq_true] using h

theorem isPyDigit_plus : isPyDigit '+' = false := by decide

theorem isPyDigit_zero : isPyDigit '0' = true := by decide

theorem isPyDigit_one : isPyDigit '1' = true := by decide

theorem isPyDigit_two : isPyDigit '2' = true := by decide

/-- Shape of a successful `0?1\d{9}` attempt. -/
def Opt0Shape (m0 : List Char) : Prop :=
  ∃ t, t.length = 9 ∧ t.all isPyDigit = true ∧
    (m0 = '0' :: '1' :: t ∨ m0 = '1' :: t)

theorem matchCore_shape {l m : List Char} (h : matchCore l = some m) :
    ∃ t, t.length = 9 ∧ t.all isPyDigit = true ∧ m = '1' :: t := by
  cases l with
  | nil => simp [matchCore] at h
  | cons c t =>
    simp only [matchCore] at h
    split at h
    · rename_i hc
      obtain ⟨hc1, hlen, hall⟩ := hc
      refine ⟨t.take 9, by simp [List.length_take, Nat.min_eq_left hlen], hall, ?_⟩
      rw [← Option.some.inj h, hc1]
    · exact absurd h (by simp)

theorem matchOpt0_shape {l m : List Char} (h : matchOpt0 l = some m) :
    Opt0Shape m := by
  unfold matchOpt0 at h
  rcases orElse_eq_some_cases h with h1 | ⟨-, h2⟩
  · split at h1
    · split at h1
      · rename_i a t ha
        rw [Option.map_eq_some'] at h1
        obtain ⟨m0, hm0, rfl⟩ := h1
        obtain ⟨t9, h9, hall, rfl⟩ := matchCore_shape hm0
        exact ⟨t9, h9, hall, Or.inl rfl⟩
      · cases h1
    · cases h1
  · obtain ⟨t9, h9, hall, rfl⟩ := matchCore_shape h2
    exact ⟨t9, h9, hall, Or.inr rfl⟩

theorem tryAt_shape {l m : List Char} (h : tryAt l = some m) :
    (∃ m0, Opt0Shape m0 ∧ m = '+' :: '2' :: '0' :: m0) ∨
    (∃ m0, Opt0Shape m0 ∧ m = '2' :: '0' :: m0) ∨ Opt0Shape m := by
  unfold tryAt at h
  rcases orElse_eq_some_cases h with h1 | ⟨-, h'⟩
  · left
    unfold tryPlus20 at h1
    split at h1
    · split at h1
      · rw [Option.map_eq_some'] at h1
        obtain ⟨m0, hm0, rfl⟩ := h1
        exact ⟨m0, matchOpt0_shape hm0, rfl⟩
      · cases h1
    · cases h1
  · rcases orElse_eq_some_cases h' with h2 | ⟨-, h3⟩
    · right; left
      unfold try20 at h2
      split at h2
      · split at h2
        · rw [Option.map_eq_some'] at h2
          obtain ⟨m0, hm0, rfl⟩ := h2
          exact ⟨m0, matchOpt0_shape hm0, rfl⟩
        · cases h2
      · cases h2
    · exact Or.inr (Or.inr (matchOpt0_shape h3))

theorem tryAt_digits {l m : List Char} (h : tryAt l = some m) :
    ∃ t, t.length = 9 ∧ t.all isPyDigit = true ∧
      (stripNonDigits m = '2' :: '0' :: '0' :: '1' :: t ∨
       stripNonDigits m = '2' :: '0' :: '1' :: t ∨
       stripNonDigits m = '0' :: '1' :: t ∨
       stripNonDigits m = '1' :: t) := by
  rcases tryAt_shape h with ⟨m0, ⟨t9, h9, hall, hm0⟩, rfl⟩ |
    ⟨m0, ⟨t9, h9, hall, hm0⟩, rfl⟩ | ⟨t9, h9, hall, hm0⟩ <;>
    rcases hm0 with rfl | rfl <;>
    refine ⟨t9, h9, hall, ?_⟩ <;>
    simp [stripNonDigits, List.filter_cons, isPyDigit_plus, isPyDigit_zero,
      isPyDigit_one, isPyDigit_two, filter_eq_self_of_all hall]

theorem egSearch_digits {l m : List Char} (h : egSearch l = some m) :
    ∃ t, t.length = 9 ∧ t.all isPyDigit = true ∧
      (stripNonDigits m = '2' :: '0' :: '0' :: '1' :: t ∨
       stripNonDigits m = '2' :: '0' :: '1' :: t ∨
       stripNonDigits m = '0' :: '1' :: t ∨
       stripNonDigits m = '1' :: t) := by
  induction l with
  | nil => simp [egSearch] at h
  | cons c t ih =>
    simp only [egSearch] at h
    rcases orElse_eq_some_cases h with h1 | ⟨-, h2⟩
    · exact tryAt_digits h1
    · exact ih h2

/--
Every value the Normalizer returns is the canonical `201` prefix followed by
the nine matched subscriber digits.
-/
theorem find_some_shape {x : Option String} {N : String}
    (h : find_egypt_mobile x = some N) :
    ∃ t, t.length = 9 ∧ t.all isPyDigit = true ∧
      N = String.mk ('2' :: '0' :: '1' :: t) := by
  cases x with
  | none => simp [find_egypt_mobile] at h
  | some s =>
    cases hs : egSearch s.data with
    | none => simp [find_egypt_mobile, hs] at h
    | some m =>
      obtain ⟨t, h9, hall, hcase⟩ := egSearch_digits hs
      rcases hcase with hc | hc | hc | hc
      · have hv : find_egypt_mobile (some s) = none := by
          simp [find_egypt_mobile, hs, hc, normalizeDigits, h9]
        rw [hv] at h
        exact absurd h (by simp)
      · have hv : find_egypt_mobile (some s) =
            some (String.mk ('2' :: '0' :: '1' :: t)) := by
          simp [find_egypt_mobile, hs, hc, normalizeDigits, finalGate, h9]
        rw [hv] at h
        exact ⟨t, h9, hall, (Option.some.inj h).symm⟩
      · have hv : find_egypt_mobile (some s) =
            some (String.mk ('2' :: '0' :: '1' :: t)) := by
          simp [find_egypt_mobile, hs, hc, normalizeDigits, finalGate, h9]
        rw [hv] at h
        exact ⟨t, h9, hall, (Option.some.inj h).symm⟩
      · have hv : find_egypt_mobile (some s) =
            some (String.mk ('2' :: '0' :: '1' :: t)) := by
          simp [find_egypt_mobile, hs, hc, normalizeDigits, finalGate, h9]
        rw [hv] at h
        exact ⟨t, h9, hall, (Option.some.inj h).symm⟩

/-! ### Helper lemmas: first-occurrence deduplication -/

theorem dropDupFirst_sublist (seen : List String) (l : List Record) :
    List.Sublist (dropDupFirst seen l) l := by
  induction l generalizing seen with
  | nil => simp [dropDupFirst]
  | cons r t ih =>
    simp only [dropDupFirst]
    split
    · exact List.Sublist.cons r (ih seen)
    · exact List.Sublist.cons₂ r (ih _)

theorem dropDupFirst_nodup_aux (seen : List String) (l : List Record) :
    ((dropDupFirst seen l).map Record.phoneNumber).Nodup ∧
    ∀ r ∈ dropDupFirst seen l, r.phoneNumber ∉ seen := by
  induction l generalizing seen with
  | nil => simp [dropDupFirst]
  | cons r t ih =>
    simp only [dropDupFirst]
    split
    · exact ⟨(ih seen).1, (ih seen).2⟩
    · rename_i hmem
      obtain ⟨ihn, ihs⟩ := ih (r.phoneNumber :: seen)
      constructor
      · simp only [List.map_cons, List.nodup_cons]
        refine ⟨?_, ihn⟩
        intro hcon
        rw [List.mem_map] at hcon
        obtain ⟨s, hsmem, hseq⟩ := hcon
        exact ihs s hsmem (by rw [hseq]; exact List.mem_cons_self _ _)
      · intro x hx
        rcases List.mem_cons.mp hx with rfl | hx'
        · exact hmem
        · intro hxseen
          exact ihs x hx' (List.mem_cons_of_mem _ hxseen)

theorem dropDupFirst_complete (seen : List String) (l : List Record) :
    ∀ r ∈ l, r.phoneNumber ∈ seen ∨
      ∃ s ∈ dropDupFirst seen l, s.phoneNumber = r.phoneNumber := by
  induction l generalizing seen with
  | nil => simp
  | cons r t ih =>
    intro x hx
    simp only [dropDupFirst]
    split
    · rename_i hmem
      rcases List.mem_cons.mp hx with rfl | hx'
      · exact Or.inl hmem
      · rcases ih seen x hx' with h | ⟨s, hs, he⟩
        · exact Or.inl h
        · exact Or.inr ⟨s, hs, he⟩
    · rcases List.mem_cons.mp hx with rfl | hx'
      · exact Or.inr ⟨x, List.mem_cons_self _ _, rfl⟩
      · rcases ih (r.phoneNumber :: seen) x hx' with h | ⟨s, hs, he⟩
        · rcases List.mem_cons.mp h with he' | h'
          · exact Or.inr ⟨r, List.mem_cons_self _ _, he'.symm⟩
          · exact Or.inl h'
        · exact Or.inr ⟨s, List.mem_cons_of_mem _ hs, he⟩

theorem dropDupFirst_find (seen : List String) (l : List Record) :
    ∀ s ∈ dropDupFirst seen l,
      l.find? (fun c => decide (c.phoneNumber = s.phoneNumber)) = some s := by
  induction l generalizing seen with
  | nil => simp [dropDupFirst]
  | cons r t ih =>
    intro s hs
    simp only [dropDupFirst] at hs
    split at hs
    · rename_i hmem
      have hns : s.phoneNumber ∉ seen := (dropDupFirst_nodup_aux seen t).2 s hs
      have hne : ¬ (r.phoneNumber = s.phoneNumber) := fun he => hns (he ▸ hmem)
      rw [List.find?_cons_of_neg _ (by simp [hne])]
      exact ih seen s hs
    · rename_i hmem
      rcases List.mem_cons.mp hs with rfl | hs'
      · rw [List.find?_cons_of_pos _ (by simp)]
      · have hns : s.phoneNumber ∉ r.phoneNumber :: seen :=
          (dropDupFirst_nodup_aux _ t).2 s hs'
        have hne : ¬ (r.phoneNumber = s.phoneNumber) := by
          intro he
          exact hns (by rw [← he]; exact List.mem_cons_self _ _)
        rw [List.find?_cons_of_neg _ (by simp [hne])]
        exact ih _ s hs'

theorem build_output_df_eq (raw : List (Option String)) :
    build_output_df raw = dropDupFirst [] (candidateRows raw) := by
  cases hc : candidateRows raw <;> simp [build_output_df, hc, dropDupFirst]

/-! ### The claims -/

/--
Claim C1: every non-no-match result of `find_egypt_mobile` is said to be a
string of exactly 12 ASCII digits starting with "201". The length-12 and
"201"-prefix parts hold, but the ASCII part fails on the code: Python's
`\d` also matches non-ASCII Unicode decimal digits, so the input "01"
followed by nine Eastern Arabic-Indic digits is accepted and the returned
12-character string contains non-ASCII characters.
-/
theorem C1_nonascii_digit_output :
    find_egypt_mobile (some "01١١١١١١١١١") = some "201١١١١١١١١١" ∧
    ("201١١١١١١١١١" : String).length = 12 ∧
    ("201١١١١١١١١١" : String).data.take 3 = ['2', '0', '1'] ∧
    (("201١١١١١١١١١" : String).data.all Char.isDigit) = false := by
  refine ⟨by decide, by decide, by decide, by decide⟩

/--
Claim C2: given a regex match, the Normalizer's result is exactly the
three-case normalization stated by the spec ("20"+tail for 0-prefixed
length 11, unchanged for 20-prefixed length 12, "20"+d for 1-prefixed
length 10, no-match otherwise), i.e. the final validation gate never
rejects a value produced by one of the three cases; and the malformed
lengths "0101234567" and "20101234567" yield no-match.
-/
theorem C2_normalization_cases (s : String) (m : List Char)
    (h : egSearch s.data = some m) :
    find_egypt_mobile (some s) =
      (specNormalize (stripNonDigits m)).map String.mk ∧
    find_egypt_mobile (some "0101234567") = none ∧
    find_egypt_mobile (some "20101234567") = none := by
  refine ⟨?_, by decide, by decide⟩
  obtain ⟨t, h9, hall, hcase⟩ := egSearch_digits h
  rcases hcase with hc | hc | hc | hc <;>
    simp [find_egypt_mobile, h, hc, normalizeDigits, specNormalize, finalGate, h9]

/-- Witness for C2 at the concrete input "01012345678". -/
theorem C2_normalization_cases_witness :
    egSearch ("01012345678" : String).data =
      some ("01012345678" : String).data ∧
    (find_egypt_mobile (some "01012345678") =
      (specNormalize (stripNonDigits ("01012345678" : String).data)).map
        String.mk ∧
     find_egypt_mobile (some "0101234567") = none ∧
     find_egypt_mobile (some "20101234567") = none) :=
  ⟨by decide,
   C2_normalization_cases "01012345678" ("01012345678" : String).data
     (by decide)⟩

/--
Claim C3: `build_output_df` keeps the candidate Records in input order and
discards later duplicates by phoneNumber: the result's keys are pairwise
distinct, the result is a sublist (order-preserving) of the candidate list,
every candidate's phoneNumber survives, and each surviving Record is the
first candidate carrying its phoneNumber.
-/
theorem C3_build_dedup (raw : List (Option String)) :
    ((build_output_df raw).map Record.phoneNumber).Nodup ∧
    List.Sublist (build_output_df raw) (candidateRows raw) ∧
    (∀ r ∈ candidateRows raw, ∃ s ∈ build_output_df raw,
      s.phoneNumber = r.phoneNumber) ∧
    (∀ s ∈ build_output_df raw,
      (candidateRows raw).find?
        (fun c => decide (c.phoneNumber = s.phoneNumber)) = some s) := by
  rw [build_output_df_eq]
  refine ⟨(dropDupFirst_nodup_aux [] _).1, dropDupFirst_sublist [] _, ?_,
    dropDupFirst_find [] _⟩
  intro r hr
  rcases dropDupFirst_complete [] _ r hr with h | h
  · simp at h
  · exact h

/--
Claim C4: normalization round-trips through the display form: whenever
`find_egypt_mobile` returns N, running it again on "+" ++ N returns N.
-/
theorem C4_display_roundtrip (x : Option String) (N : String)
    (h : find_egypt_mobile x = some N) :
    find_egypt_mobile (some ("+" ++ N)) = some N := by
  obtain ⟨t, h9, hall, rfl⟩ := find_some_shape h
  have ht : t.take 9 = t := by rw [← h9]; exact List.take_length t
  have hdata : ("+" ++ String.mk ('2' :: '0' :: '1' :: t)).data
      = '+' :: '2' :: '0' :: '1' :: t := rfl
  have hcore : matchCore ('1' :: t) = some ('1' :: t) := by
    simp [matchCore, h9, ht, hall]
  have hopt : matchOpt0 ('1' :: t) = some ('1' :: t) := by
    simp [matchOpt0, hcore]
  have hplus : tryPlus20 ('+' :: '2' :: '0' :: '1' :: t)
      = some ('+' :: '2' :: '0' :: '1' :: t) := by
    simp [tryPlus20, hopt]
  have hsearch : egSearch ('+' :: '2' :: '0' :: '1' :: t)
      = some ('+' :: '2' :: '0' :: '1' :: t) := by
    simp [egSearch, tryAt, hplus]
  have hstrip : stripNonDigits ('+' :: '2' :: '0' :: '1' :: t)
      = '2' :: '0' :: '1' :: t := by
    simp [stripNonDigits, List.filter_cons, isPyDigit_plus, isPyDigit_two,
      isPyDigit_zero, isPyDigit_one, filter_eq_self_of_all hall]
  simp [find_egypt_mobile, hdata, hsearch, hstrip, normalizeDigits,
    finalGate, h9]

/-- Witness for C4 at the concrete input "01012345678". -/
theorem C4_display_roundtrip_witness :
    find_egypt_mobile (some ("+" ++ "201012345678")) = some "201012345678" :=
  C4_display_roundtrip (some "01012345678") "201012345678" (by decide)

/--
Claim C5: the regex is applied as a substring search and only the first
(leftmost) position admitting a match is used: any successful search result
comes from some position i at which the pattern matches while it matches at
no earlier position; and the embedded text
"call me at 01511112222 thanks" normalizes to "201511112222", producing
one Record with phoneNumber "+201511112222".
-/
theorem C5_leftmost_search (l m : List Char) (h : egSearch l = some m) :
    (∃ i, tryAt (List.drop i l) = some m ∧
      ∀ j < i, tryAt (List.drop j l) = none) ∧
    find_egypt_mobile (some "call me at 01511112222 thanks") =
      some "201511112222" ∧
    build_output_df [some "call me at 01511112222 thanks"] =
      [⟨"+201511112222", "https://wa.me/201511112222", false⟩] := by
  refine ⟨?_, by decide, by decide⟩
  induction l with
  | nil => simp [egSearch] at h
  | cons c t ih =>
    simp only [egSearch] at h
    rcases orElse_eq_some_cases h with h1 | ⟨hnone, h2⟩
    · refine ⟨0, by simpa using h1, ?_⟩
      intro j hj
      exact absurd hj (Nat.not_lt_zero j)
    · obtain ⟨i, hi, hprev⟩ := ih h2
      refine ⟨i + 1, by simpa using hi, ?_⟩
      intro j hj
      cases j with
      | zero => simpa using hnone
      | succ j' => simpa using hprev j' (Nat.lt_of_succ_lt_succ hj)

/-- Witness for C5 at the concrete input "call me at 01511112222 thanks". -/
theorem C5_leftmost_search_witness :
    (∃ i, tryAt (List.drop i ("call me at 01511112222 thanks" : String).data)
        = some ("01511112222" : String).data ∧
      ∀ j < i,
        tryAt (List.drop j ("call me at 01511112222 thanks" : String).data)
          = none) ∧
    find_egypt_mobile (some "call me at 01511112222 thanks") =
      some "201511112222" ∧
    build_output_df [some "call me at 01511112222 thanks"] =
      [⟨"+201511112222", "https://wa.me/201511112222", false⟩] :=
  C5_leftmost_search ("call me at 01511112222 thanks" : String).data
    ("01511112222" : String).data (by decide)

/--
Claim C6: the candidate Record built for a value normalizing to N has
exactly phoneNumber = "+" ++ N (13 characters), link =
"https://wa.me/" ++ N, and completed = false.
-/
theorem C6_record_fields (v : Option String) (N : String)
    (h : find_egypt_mobile v = some N) :
    candidateRows [v] = [⟨"+" ++ N, "https://wa.me/" ++ N, false⟩] ∧
    ("+" ++ N).length = 13 := by
  obtain ⟨t, h9, hall, rfl⟩ := find_some_shape h
  have hplus1 : ("+" : String).length = 1 := rfl
  constructor
  · simp [candidateRows, h, mkRow, h9]
  · simp [String.length_append, hplus1, h9]

/-- Witness for C6 at the concrete input "01012345678". -/
theorem C6_record_fields_witness :
    candidateRows [some "01012345678"] =
      [⟨"+" ++ "201012345678", "https://wa.me/" ++ "201012345678", false⟩] ∧
    ("+" ++ "201012345678" : String).length = 13 :=
  C6_record_fields (some "01012345678") "201012345678" (by decide)

/--
Claim C7: the export projection emits a header row "Phone Number",
"WhatsApp Link" followed by one two-cell row per Record in table order;
the link cell is the plain URL unchanged when clickable is off and the
HYPERLINK formula embedding that exact URL with the fixed label
"Open WhatsApp" when it is on.
-/
theorem C7_export_projection (df : List Record) (clickable : Bool) (i : Nat)
    (h : i < df.length) :
    (dataframe_to_excel_bytes df clickable).head? =
      some ["Phone Number", "WhatsApp Link"] ∧
    (dataframe_to_excel_bytes df clickable).length = df.length + 1 ∧
    (dataframe_to_excel_bytes df clickable)[i + 1]? =
      some [(df.get ⟨i, h⟩).phoneNumber,
        if clickable then hyperlinkFormula (df.get ⟨i, h⟩).link
        else (df.get ⟨i, h⟩).link] ∧
    hyperlinkFormula (df.get ⟨i, h⟩).link =
      "=HYPERLINK(\"" ++ (df.get ⟨i, h⟩).link ++ "\", \"Open WhatsApp\")" := by
  refine ⟨rfl, by simp [dataframe_to_excel_bytes], ?_, rfl⟩
  simp [dataframe_to_excel_bytes, List.getElem?_map,
    List.getElem?_eq_getElem h]

/-- Witness for C7 at a concrete one-row table with clickable links on. -/
theorem C7_export_projection_witness :
    (dataframe_to_excel_bytes
        [⟨"+201012345678", "https://wa.me/201012345678", false⟩] true).head? =
      some ["Phone Number", "WhatsApp Link"] ∧
    (dataframe_to_excel_bytes
        [⟨"+201012345678", "https://wa.me/201012345678", false⟩] true).length
      = 1 + 1 ∧
    (dataframe_to_excel_bytes
        [⟨"+201012345678", "https://wa.me/201012345678", false⟩] true)[0 + 1]?
      = some ["+201012345678",
          if true then hyperlinkFormula "https://wa.me/201012345678"
          else "https://wa.me/201012345678"] ∧
    hyperlinkFormula "https://wa.me/201012345678" =
      "=HYPERLINK(\"" ++ "https://wa.me/201012345678" ++
        "\", \"Open WhatsApp\")" :=
  C7_export_projection
    [⟨"+201012345678", "https://wa.me/201012345678", false⟩] true 0
    (by decide)

/--
Claim C8: the Normalizer is a total function with no error outcome: a null
input yields no-match, and every input yields either no-match or a
canonical 12-character "201"-prefixed result; malformed input is the
normal no-match value, never a failure.
-/
theorem C8_total_no_raise :
    find_egypt_mobile none = none ∧
    ∀ x : Option String, find_egypt_mobile x = none ∨
      ∃ N, find_egypt_mobile x = some N ∧ N.length = 12 ∧
        N.data.take 3 = ['2', '0', '1'] := by
  refine ⟨rfl, ?_⟩
  intro x
  cases hx : find_egypt_mobile x with
  | none => exact Or.inl rfl
  | some N =>
    obtain ⟨t, h9, hall, rfl⟩ := find_some_shape hx
    refine Or.inr ⟨String.mk ('2' :: '0' :: '1' :: t), rfl, by simp [h9], ?_⟩
    show ('2' :: '0' :: '1' :: t).take 3 = ['2', '0', '1']
    simp

/--
Claim C9: for an empty input sequence, and for every input sequence in
which no value normalizes, the Table Builder returns an empty table (and,
being a total function, raises nothing).
-/
theorem C9_empty_table (raw : List (Option String))
    (h : ∀ v ∈ raw, find_egypt_mobile v = none) :
    build_output_df raw = [] ∧ build_output_df [] = [] := by
  have hc : candidateRows raw = [] := by
    rw [candidateRows, List.filterMap_eq_nil_iff]
    intro v hv
    simp [h v hv]
  exact ⟨by simp [build_output_df, hc], rfl⟩

/-- Witness for C9 on a two-element all-non-matching input. -/
theorem C9_empty_table_witness :
    build_output_df [some "not a phone", none] = [] ∧
    build_output_df [] = [] :=
  C9_empty_table [some "not a phone", none] (by decide)

/--
Claim C10: when the digits "20" immediately precede a valid 11-digit local
number, the leftmost match consumes all 13 digits, which fail every
normalization length case, and no fallback to the embedded 11-digit
candidate happens: "2001"+9 digits and "+2001"+9 digits give no-match even
though the embedded "01"+9 digits alone normalizes successfully.
-/
theorem C10_no_backtrack_to_embedded (t : List Char) (h9 : t.length = 9)
    (hall : t.all isPyDigit = true) :
    find_egypt_mobile (some (String.mk ('2' :: '0' :: '0' :: '1' :: t)))
      = none ∧
    find_egypt_mobile
        (some (String.mk ('+' :: '2' :: '0' :: '0' :: '1' :: t))) = none ∧
    find_egypt_mobile (some (String.mk ('0' :: '1' :: t)))
      = some (String.mk ('2' :: '0' :: '1' :: t)) := by
  have ht : t.take 9 = t := by rw [← h9]; exact List.take_length t
  have hcore : matchCore ('1' :: t) = some ('1' :: t) := by
    simp [matchCore, h9, ht, hall]
  have hopt : matchOpt0 ('0' :: '1' :: t) = some ('0' :: '1' :: t) := by
    simp [matchOpt0, hcore]
  have hstrip13 : stripNonDigits ('2' :: '0' :: '0' :: '1' :: t)
      = '2' :: '0' :: '0' :: '1' :: t := by
    simp [stripNonDigits, List.filter_cons, isPyDigit_two, isPyDigit_zero,
      isPyDigit_one, filter_eq_self_of_all hall]
  refine ⟨?_, ?_, ?_⟩
  · have hp : tryPlus20 ('2' :: '0' :: '0' :: '1' :: t) = none := by
      simp [tryPlus20]
    have h20 : try20 ('2' :: '0' :: '0' :: '1' :: t)
        = some ('2' :: '0' :: '0' :: '1' :: t) := by
      simp [try20, hopt]
    have hs : egSearch ('2' :: '0' :: '0' :: '1' :: t)
        = some ('2' :: '0' :: '0' :: '1' :: t) := by
      simp [egSearch, tryAt, hp, h20]
    simp [find_egypt_mobile, hs, hstrip13, normalizeDigits, h9]
  · have hp : tryPlus20 ('+' :: '2' :: '0' :: '0' :: '1' :: t)
        = some ('+' :: '2' :: '0' :: '0' :: '1' :: t) := by
      simp [tryPlus20, hopt]
    have hs : egSearch ('+' :: '2' :: '0' :: '0' :: '1' :: t)
        = some ('+' :: '2' :: '0' :: '0' :: '1' :: t) := by
      simp [egSearch, tryAt, hp]
    have hstrip : stripNonDigits ('+' :: '2' :: '0' :: '0' :: '1' :: t)
        = '2' :: '0' :: '0' :: '1' :: t := by
      simp [stripNonDigits, List.filter_cons, isPyDigit_plus, isPyDigit_two,
        isPyDigit_zero, isPyDigit_one, filter_eq_self_of_all hall]
    simp [find_egypt_mobile, hs, hstrip, normalizeDigits, h9]
  · have hp : tryPlus20 ('0' :: '1' :: t) = none := by
      cases t <;> simp [tryPlus20]
    have h20 : try20 ('0' :: '1' :: t) = none := by
      simp [try20]
    have hs : egSearch ('0' :: '1' :: t) = some ('0' :: '1' :: t) := by
      simp [egSearch, tryAt, hp, h20, hopt]
    have hstrip : stripNonDigits ('0' :: '1' :: t) = '0' :: '1' :: t := by
      simp [stripNonDigits, List.filter_cons, isPyDigit_zero, isPyDigit_one,
        filter_eq_self_of_all hall]
    simp [find_egypt_mobile, hs, hstrip, normalizeDigits, finalGate, h9]

/-- Witness for C10 at the concrete digits "2001012345678". -/
theorem C10_no_backtrack_to_embedded_witness :
    find_egypt_mobile (some (String.mk
        ('2' :: '0' :: '0' :: '1' ::
          ['0', '1', '2', '3', '4', '5', '6', '7', '8']))) = none ∧
    find_egypt_mobile (some (String.mk
        ('+' :: '2' :: '0' :: '0' :: '1' ::
          ['0', '1', '2', '3', '4', '5', '6', '7', '8']))) = none ∧
    find_egypt_mobile (some (String.mk
        ('0' :: '1' :: ['0', '1', '2', '3', '4', '5', '6', '7', '8'])))
      = some (String.mk
          ('2' :: '0' :: '1' ::
            ['0', '1', '2', '3', '4', '5', '6', '7', '8'])) :=
  C10_no_backtrack_to_embedded ['0', '1', '2', '3', '4', '5', '6', '7', '8']
    (by decide) (by decide)

